import Mathlib

/-!
# mt_color_print

A shallow embedding of `mt_color_print.hpp`: the process-wide state of the
header (the color flag, the palette cursor of `next_color`, the map of
`thread_color`, and `std::cout`) is one record that every function takes and
returns.  Each public operation holds `details::mut` from its first statement to
its last, so an operation is one transition of that record.

* `std::thread::id` is an opaque comparable value; it is a natural number here,
  and its stream rendering `operator<<` is the parameter `idText`.
* A value handed to `print` or `print_range` is given by what its `operator<<`
  does to the stream (`Printable`): write its rendering, leave a field width
  pending, set an error flag, or throw.
* The state record keeps the text of `std::cout`; its field width and error
  flag are followed inside a call (`Fmt`), a call being taken to find the
  stream good and with no width pending, as it is at process start and after
  every call whose arguments are plain text.
* `const char *` labels are strings; the cursor `it` is its offset from
  `std::cbegin(colors)`, so `std::cend(colors)` is offset `15`.
-/

namespace mt_color_print

/-- Thread identity (`std::thread::id`): opaque, comparable. -/
abbrev ThreadId := Nat

/-- Model of `std::cout`: `dev` is what has reached the device after the last
flush, `buf` is what has been written since. -/
structure OStream where
  dev : String
  buf : String
deriving DecidableEq

namespace OStream

/-- Stream insertion `cout << x` of an already rendered value. -/
def put (o : OStream) (x : String) : OStream := ⟨o.dev, o.buf ++ x⟩

/-- Explicit flush: everything pending reaches the device. -/
def flush (o : OStream) : OStream := ⟨o.dev ++ o.buf, ""⟩

/-- Manipulator `std::endl`: write a newline, then flush. -/
def endl (o : OStream) : OStream := (o.put "\n").flush

/-- Every byte written to the stream so far, flushed or not. -/
def written (o : OStream) : String := o.dev ++ o.buf

end OStream

/-- Stream `std::cout` in the course of one call: its text, the pending field
width (`ios_base::width`) and whether an error flag (`badbit`, `failbit`) is set. -/
structure Fmt where
  out : OStream
  width : Nat
  bad : Bool
deriving DecidableEq

namespace Fmt

/-- Stream as a call finds it: good, no width pending. -/
def start (o : OStream) : Fmt := ⟨o, 0, false⟩

/-- Fill characters that bring `x` to the field width `w`: spaces, the default fill. -/
def pad (w : Nat) (x : String) : String := String.mk (List.replicate (w - x.utf8ByteSize) ' ')

/-- Formatted insertion `cout << x` of characters (`const char *`, `char`,
`std::string`): nothing is written on a stream in error; otherwise `x` goes out
right-adjusted in the pending width, which is then cleared. -/
def insert (f : Fmt) (x : String) : Fmt :=
  if f.bad then f else ⟨f.out.put (pad f.width x ++ x), 0, false⟩

/-- Manipulator `std::endl`: `put` of a newline, then `flush`; neither is done on a
stream in error, and neither touches the width. -/
def endl (f : Fmt) : Fmt :=
  if f.bad then f else ⟨f.out.endl, f.width, false⟩

end Fmt

/-- Values that `print` and `print_range` accept, by the behaviour of their
`operator<<`: `text x` is a value whose insertion is a formatted write of its
rendering `x` (strings, characters, numbers), `setw n` is the manipulator
`std::setw(n)`, `nullbuf` is a null `std::streambuf *`, and `throwing` is a value
whose `operator<<` throws before it writes. -/
inductive Printable where
  | text (x : String)
  | setw (n : Nat)
  | nullbuf
  | throwing
deriving DecidableEq

/-- Insertion `std::cout << x` of a printable value; `Except.error` is an exception
leaving `operator<<`, with the stream as it is then. -/
def Printable.put (f : Fmt) (x : Printable) : Except Fmt Fmt :=
  match x with
  | Printable.text t => Except.ok (f.insert t)
  | Printable.setw n => Except.ok ⟨f.out, n, f.bad⟩
  | Printable.nullbuf => Except.ok (if f.bad then f else ⟨f.out, f.width, true⟩)
  | Printable.throwing => Except.error f

/-- Process-wide state of the header. -/
structure State where
  color_enabled : Bool
  it : Nat
  thread_color_map : List (ThreadId × String)
  cout : OStream
deriving DecidableEq

/-- Palette `colors` of `next_color`. -/
def colors : List String :=
  ["31", "32", "33", "34", "35", "36", "37", "90", "91", "92", "93", "94", "95", "96", "97"]

/-- Reset escape `details::reset_color`. -/
def reset_color : String := "\x1b[0m"

/-- State at process start: flag on, cursor at `cbegin`, empty map, nothing printed. -/
def initial : State := ⟨true, 0, [], ⟨"", ""⟩⟩

/-- Function `details::next_color`: wrap the cursor when it is at `cend`, then
read the entry under it and advance (`*it++`).  A read outside the array, which
the C++ leaves undefined, yields the empty label here; `next_color_fst` shows
that it does not happen while the cursor is at most `cend`. -/
def next_color (s : State) : String × State :=
  let it := if s.it = colors.length then 0 else s.it
  (colors.getD it "", ⟨s.color_enabled, it + 1, s.thread_color_map, s.cout⟩)

/-- Lookup `unordered_map::find`: the value bound to `k`, if any. -/
def find (m : List (ThreadId × String)) (k : ThreadId) : Option String :=
  match m with
  | [] => none
  | p :: r => if p.1 = k then some p.2 else find r k

/-- Assignment `m[k] = v`: rebind `k` if present, insert it otherwise. -/
def assign (m : List (ThreadId × String)) (k : ThreadId) (v : String) :
    List (ThreadId × String) :=
  match m with
  | [] => [(k, v)]
  | p :: r => if p.1 = k then (k, v) :: r else p :: assign r k v

/-- Function `details::thread_color`. -/
def thread_color (s : State) (thread_id : ThreadId) : String × State :=
  match find s.thread_color_map thread_id with
  | none =>
    let r := next_color s
    (r.1, ⟨r.2.color_enabled, r.2.it, assign r.2.thread_color_map thread_id r.1, r.2.cout⟩)
  | some c => (c, s)

/-- Function `details::thread_id_str`. -/
def thread_id_str (idText : ThreadId → String) (s : State) (thread_id : ThreadId) :
    String × State :=
  if s.color_enabled then
    let r := thread_color s thread_id
    ("" ++ "\x1b[" ++ r.1 ++ "m" ++ "[" ++ idText thread_id ++ "]", r.2)
  else
    ("" ++ "[" ++ idText thread_id ++ "]", s)

/-- Function `set_color_enabled`. -/
def set_color_enabled (enable : Bool) (s : State) : State :=
  ⟨enable, s.it, s.thread_color_map, s.cout⟩

/-- Function `is_color_enabled`: the value returned and the state left. -/
def is_color_enabled (s : State) : Bool × State := (s.color_enabled, s)

/-- Body of the loop of `print_range`: `cout << *from++ << '\n'`. -/
def print_range_step (f : Fmt) (x : Printable) : Except Fmt Fmt :=
  match Printable.put f x with
  | Except.error g => Except.error g
  | Except.ok g => Except.ok (g.insert "\n")

/-- Loop `while( from != to )` of `print_range`, left when an insertion throws. -/
def print_range_loop (f : Fmt) (items : List Printable) : Except Fmt Fmt :=
  match items with
  | [] => Except.ok f
  | x :: r =>
    match print_range_step f x with
    | Except.error g => Except.error g
    | Except.ok g => print_range_loop g r

/-- Function `print_range`, called by thread `tid` on the range of `items`: the
state it leaves, after a normal return (`ok`) or when an exception leaves it
(`error`), the reset sequence and `std::endl` then being skipped. -/
def print_range_outcome (idText : ThreadId → String) (tid : ThreadId)
    (items : List Printable) (s : State) : Except State State :=
  let r := thread_id_str idText s tid
  let f1 := ((Fmt.start r.2.cout).insert r.1).insert "\n"
  match print_range_loop f1 items with
  | Except.error g => Except.error ⟨r.2.color_enabled, r.2.it, r.2.thread_color_map, g.out⟩
  | Except.ok g =>
    Except.ok ⟨r.2.color_enabled, r.2.it, r.2.thread_color_map,
      ((g.insert reset_color).endl).out⟩

/-- State that a call of `print_range` leaves, however the call ends. -/
def print_range (idText : ThreadId → String) (tid : ThreadId) (items : List Printable)
    (s : State) : State :=
  match print_range_outcome idText tid items s with
  | Except.error s1 => s1
  | Except.ok s1 => s1

/-- Lambda `print_one` of `print`, on the pair of the counter `i` and the stream.
Both `i` and `nArgs` are `size_t`; `i` never exceeds `nArgs + 1`, the size of a
template pack plus one, so it does not wrap. -/
def print_one (nArgs : Nat) (st : Nat × Fmt) (x : Printable) : Except Fmt (Nat × Fmt) :=
  match Printable.put st.2 x with
  | Except.error g => Except.error g
  | Except.ok g =>
    if st.1 < nArgs then Except.ok (st.1 + 1, g.insert " ") else Except.ok (st.1 + 1, g)

/-- Fold expression `( print_one(args), ... )` of `print`: the calls in argument
order, left when one throws. -/
def print_each (nArgs : Nat) (st : Nat × Fmt) (args : List Printable) :
    Except Fmt (Nat × Fmt) :=
  match args with
  | [] => Except.ok st
  | x :: r =>
    match print_one nArgs st x with
    | Except.error g => Except.error g
    | Except.ok st1 => print_each nArgs st1 r

/-- Function `print`, called by thread `tid` with the arguments `args`: the state
it leaves, after a normal return (`ok`) or when an exception leaves it (`error`),
the reset sequence and `std::endl` then being skipped. -/
def print_outcome (idText : ThreadId → String) (tid : ThreadId) (args : List Printable)
    (s : State) : Except State State :=
  let nArgs := args.length
  let r := thread_id_str idText s tid
  let f1 := ((Fmt.start r.2.cout).insert r.1).insert " "
  match print_each nArgs (1, f1) args with
  | Except.error g => Except.error ⟨r.2.color_enabled, r.2.it, r.2.thread_color_map, g.out⟩
  | Except.ok st =>
    Except.ok ⟨r.2.color_enabled, r.2.it, r.2.thread_color_map,
      ((st.2.insert reset_color).endl).out⟩

/-- State that a call of `print` leaves, however the call ends. -/
def print (idText : ThreadId → String) (tid : ThreadId) (args : List Printable)
    (s : State) : State :=
  match print_outcome idText tid args s with
  | Except.error s1 => s1
  | Except.ok s1 => s1

/-- Successive `thread_color` calls for the identities of `ts`, in order: the labels
returned and the final state. -/
def thread_colors (s : State) (ts : List ThreadId) : List String × State :=
  match ts with
  | [] => ([], s)
  | t :: r =>
    let a := thread_color s t
    let b := thread_colors a.2 r
    (a.1 :: b.1, b.2)

/-- States reachable from process start through the public operations. -/
inductive Reachable (idText : ThreadId → String) : State → Prop
  | start : Reachable idText initial
  | set_color_enabled (enable : Bool) (s : State) :
      Reachable idText s → Reachable idText (set_color_enabled enable s)
  | is_color_enabled (s : State) :
      Reachable idText s → Reachable idText (is_color_enabled s).2
  | print_range (tid : ThreadId) (items : List Printable) (s : State) :
      Reachable idText s → Reachable idText (print_range idText tid items s)
  | print (tid : ThreadId) (args : List Printable) (s : State) :
      Reachable idText s → Reachable idText (print idText tid args s)

/-- Allocator invariant: the cursor is inside `colors` or one past its end, and
every label bound in the map is an entry of `colors`. -/
def palette_ok (s : State) : Prop :=
  s.it ≤ colors.length ∧ ∀ p ∈ s.thread_color_map, p.2 ∈ colors

instance (s : State) : Decidable (palette_ok s) := by
  unfold palette_ok
  exact inferInstance

/-- Offset that `next_color` dereferences (`*it`): the cursor itself, or the start
of `colors` when the cursor stands at `cend`. -/
def next_color_at (s : State) : Nat := if s.it = colors.length then 0 else s.it

/-- State after `n` successive `next_color` calls. -/
def next_colors (n : Nat) (s : State) : State :=
  match n with
  | 0 => s
  | n + 1 => (next_color (next_colors n s)).2

/-- Reference allocator of the specification (section 4.1): the Allocation Cursor,
the next palette index to hand out, and the Thread-Color Map. -/
structure SpecAllocator where
  cursor : Nat
  map : List (ThreadId × String)
deriving DecidableEq

/-- Reference allocator at process start: cursor at the first palette entry, empty map. -/
def spec_initial : SpecAllocator := ⟨0, []⟩

/-- Operation `color_for` of the specification, in its words: if the identity is
present in the map, return its bound label with no mutation; otherwise take the
label at the cursor position, advance the cursor by one position modulo the
palette length, store the new pair and return the label. -/
def color_for (a : SpecAllocator) (t : ThreadId) : String × SpecAllocator :=
  match find a.map t with
  | some c => (c, a)
  | none =>
    let c := colors.getD a.cursor ""
    (c, ⟨(a.cursor + 1) % colors.length, assign a.map t c⟩)

/-- Successive `color_for` lookups for the identities of `ts`, in order: the labels
returned and the final allocator. -/
def color_fors (a : SpecAllocator) (ts : List ThreadId) : List String × SpecAllocator :=
  match ts with
  | [] => ([], a)
  | t :: r =>
    let x := color_for a t
    let y := color_fors x.2 r
    (x.1 :: y.1, y.2)

/-! ## The thread-color map -/

theorem find_assign_self (m : List (ThreadId × String)) (k : ThreadId) (v : String) :
    find (assign m k v) k = some v := by
  induction m with
  | nil => simp [assign, find]
  | cons p r ih =>
    by_cases h : p.1 = k
    · simp [assign, find, h]
    · simp [assign, find, h, ih]

theorem find_assign_other (m : List (ThreadId × String)) (k t : ThreadId) (v : String)
    (h : t ≠ k) : find (assign m k v) t = find m t := by
  induction m with
  | nil =>
    have h1 : ¬ k = t := fun e => h e.symm
    simp [assign, find, h1]
  | cons p r ih =>
    by_cases hp : p.1 = k
    · have h1 : ¬ k = t := fun e => h e.symm
      have h2 : ¬ p.1 = t := fun e => h (e.symm.trans hp)
      simp [assign, find, hp, h1, h2]
    · simp only [assign, if_neg hp, find, ih]

/-! ## The allocator -/

theorem thread_color_bound (s : State) (t : ThreadId) (c : String)
    (h : find s.thread_color_map t = some c) : thread_color s t = (c, s) := by
  simp [thread_color, h]

theorem thread_color_fresh (s : State) (t : ThreadId)
    (h : find s.thread_color_map t = none) :
    thread_color s t =
      ((next_color s).1,
        ⟨s.color_enabled, (next_color s).2.it, assign s.thread_color_map t (next_color s).1,
          s.cout⟩) := by
  simp [thread_color, h, next_color]

theorem thread_color_find_self (s : State) (t : ThreadId) :
    find (thread_color s t).2.thread_color_map t = some (thread_color s t).1 := by
  cases h : find s.thread_color_map t with
  | none => rw [thread_color_fresh s t h]; exact find_assign_self _ _ _
  | some c => rw [thread_color_bound s t c h]; exact h

theorem thread_color_find_keep (s : State) (u t : ThreadId) (c : String)
    (h : find s.thread_color_map t = some c) :
    find (thread_color s u).2.thread_color_map t = some c := by
  cases hu : find s.thread_color_map u with
  | none =>
    rw [thread_color_fresh s u hu]
    have hne : t ≠ u := by
      intro e
      rw [e, hu] at h
      exact Option.noConfusion h
    simpa [find_assign_other _ _ _ _ hne] using h
  | some d => rw [thread_color_bound s u d hu]; exact h

theorem thread_color_find_other (s : State) (u t : ThreadId) (h : t ≠ u) :
    find (thread_color s u).2.thread_color_map t = find s.thread_color_map t := by
  cases hu : find s.thread_color_map u with
  | none => rw [thread_color_fresh s u hu]; exact find_assign_other _ _ _ _ h
  | some d => rw [thread_color_bound s u d hu]

theorem thread_colors_length (ts : List ThreadId) :
    ∀ s : State, (thread_colors s ts).1.length = ts.length := by
  induction ts with
  | nil => intro s; rfl
  | cons a r ih => intro s; simp [thread_colors, ih]

theorem thread_colors_find_keep (ts : List ThreadId) :
    ∀ (s : State) (t : ThreadId) (c : String), find s.thread_color_map t = some c →
      find (thread_colors s ts).2.thread_color_map t = some c := by
  induction ts with
  | nil => intro s t c h; exact h
  | cons a r ih =>
    intro s t c h
    exact ih (thread_color s a).2 t c (thread_color_find_keep s a t c h)

theorem thread_colors_find_final (ts : List ThreadId) :
    ∀ (s : State) (i : Nat) (t : ThreadId), ts[i]? = some t →
      ∃ c, (thread_colors s ts).1[i]? = some c ∧
        find (thread_colors s ts).2.thread_color_map t = some c := by
  induction ts with
  | nil => intro s i t h; simp at h
  | cons a r ih =>
    intro s i t h
    cases i with
    | zero =>
      have e : a = t := by simpa using h
      subst e
      refine ⟨(thread_color s a).1, by simp [thread_colors], ?_⟩
      exact thread_colors_find_keep r _ a _ (thread_color_find_self s a)
    | succ i =>
      have h1 : r[i]? = some t := by simpa using h
      obtain ⟨c, hc, hf⟩ := ih (thread_color s a).2 i t h1
      exact ⟨c, by simpa [thread_colors] using hc, hf⟩

theorem next_color_fst (s : State) (h : s.it ≤ 15) :
    some (next_color s).1 = colors[s.it % 15]? := by
  have hl : colors.length = 15 := rfl
  rcases Nat.lt_or_ge s.it 15 with h1 | h1
  · have e : s.it % 15 = s.it := Nat.mod_eq_of_lt h1
    have hne : s.it ≠ 15 := by omega
    simp only [next_color, hl, hne, if_false, e]
    rw [List.getD_eq_getElem?_getD, List.getElem?_eq_getElem (by rw [hl]; exact h1)]
    rfl
  · have e : s.it = 15 := by omega
    simp [next_color, hl, e, colors]

theorem next_color_it (s : State) (h : s.it ≤ 15) :
    (next_color s).2.it = s.it % 15 + 1 := by
  have hl : colors.length = 15 := rfl
  rcases Nat.lt_or_ge s.it 15 with h1 | h1
  · have e : s.it % 15 = s.it := Nat.mod_eq_of_lt h1
    have hne : s.it ≠ 15 := by omega
    simp [next_color, hl, hne, e]
  · have e : s.it = 15 := by omega
    simp [next_color, hl, e]

theorem thread_colors_fresh (ts : List ThreadId) :
    ∀ s : State, s.it ≤ 15 → ts.Nodup → (∀ t ∈ ts, find s.thread_color_map t = none) →
      ∀ k, k < ts.length → (thread_colors s ts).1[k]? = colors[(s.it + k) % 15]? := by
  induction ts with
  | nil => intro s _ _ _ k hk; simp at hk
  | cons a r ih =>
    intro s hs hd hf k hk
    have ha : find s.thread_color_map a = none := hf a (by simp)
    have hd1 := List.nodup_cons.mp hd
    cases k with
    | zero =>
      simp only [thread_colors, List.getElem?_cons_zero, Nat.add_zero]
      rw [thread_color_fresh s a ha]
      exact next_color_fst s hs
    | succ k =>
      have hit : (thread_color s a).2.it = s.it % 15 + 1 := by
        rw [thread_color_fresh s a ha]; exact next_color_it s hs
      have hs1 : (thread_color s a).2.it ≤ 15 := by rw [hit]; omega
      have hf1 : ∀ t ∈ r, find (thread_color s a).2.thread_color_map t = none := by
        intro t ht
        have hne : t ≠ a := fun e => hd1.1 (e ▸ ht)
        rw [thread_color_find_other s a t hne]
        exact hf t (by simp [ht])
      have hk1 : k < r.length := by simpa using hk
      have := ih (thread_color s a).2 hs1 hd1.2 hf1 k hk1
      simp only [thread_colors, List.getElem?_cons_succ]
      rw [this, hit]
      congr 1
      omega

/-- Claim C2: from the initial state, `thread_color` called on pairwise distinct
identities `T1, ..., TN` in order returns one label per call, the k-th call
(counted from 0) returns palette entry `k mod 15`, and so the 16th distinct
thread gets the label of the 1st. -/
theorem thread_color_round_robin (ts : List ThreadId) (hd : ts.Nodup) :
    colors = ["31", "32", "33", "34", "35", "36", "37", "90", "91", "92", "93", "94", "95",
        "96", "97"] ∧
      (thread_colors initial ts).1.length = ts.length ∧
      (∀ k, k < ts.length → (thread_colors initial ts).1[k]? = colors[k % 15]?) ∧
      (15 < ts.length → (thread_colors initial ts).1[15]? = (thread_colors initial ts).1[0]?) := by
  have main : ∀ k, k < ts.length → (thread_colors initial ts).1[k]? = colors[k % 15]? := by
    intro k hk
    have := thread_colors_fresh ts initial (by decide) hd (fun t _ => rfl) k hk
    simpa [initial] using this
  refine ⟨rfl, thread_colors_length ts initial, main, ?_⟩
  intro h
  rw [main 15 h, main 0 (by omega)]

/-- Witness for C2 on sixteen distinct identities. -/
theorem thread_color_round_robin_witness :
    (List.range 16).Nodup ∧
      (thread_colors initial (List.range 16)).1[15]? = (thread_colors initial (List.range 16)).1[0]? :=
  ⟨by decide, (thread_color_round_robin (List.range 16) (by decide)).2.2.2 (by decide)⟩

/-- Claim C3: in any state and for any sequence of `thread_color` calls, two calls
for the same identity return the same label, that label is the one the map
binds to the identity afterwards and the one it bound before the sequence if
there was one; and no entry of the map is removed or changed by the sequence. -/
theorem thread_color_stable (s : State) (ts : List ThreadId) (i j : Nat) (t : ThreadId)
    (hi : ts[i]? = some t) (hj : ts[j]? = some t) :
    (∃ c, (thread_colors s ts).1[i]? = some c ∧ (thread_colors s ts).1[j]? = some c ∧
        find (thread_colors s ts).2.thread_color_map t = some c ∧
        ∀ c0, find s.thread_color_map t = some c0 → c = c0) ∧
      (∀ u c0, find s.thread_color_map u = some c0 →
        find (thread_colors s ts).2.thread_color_map u = some c0) := by
  obtain ⟨c, hci, hfi⟩ := thread_colors_find_final ts s i t hi
  obtain ⟨d, hdj, hfj⟩ := thread_colors_find_final ts s j t hj
  have hcd : d = c := by
    rw [hfi] at hfj
    exact (Option.some.inj hfj).symm
  refine ⟨⟨c, hci, hcd ▸ hdj, hfi, ?_⟩, thread_colors_find_keep ts s⟩
  intro c0 h0
  have := thread_colors_find_keep ts s t c0 h0
  rw [hfi] at this
  exact Option.some.inj this

/-- Witness for C3: identity 5 called first and third. -/
theorem thread_color_stable_witness :
    (∃ c, (thread_colors initial [5, 7, 5]).1[0]? = some c ∧
        (thread_colors initial [5, 7, 5]).1[2]? = some c ∧
        find (thread_colors initial [5, 7, 5]).2.thread_color_map 5 = some c ∧
        ∀ c0, find initial.thread_color_map 5 = some c0 → c = c0) ∧
      (∀ u c0, find initial.thread_color_map u = some c0 →
        find (thread_colors initial [5, 7, 5]).2.thread_color_map u = some c0) :=
  thread_color_stable initial [5, 7, 5] 0 2 5 (by decide) (by decide)

/-! ## The output stream -/

theorem written_put (o : OStream) (x : String) : (o.put x).written = o.written ++ x := by
  simp [OStream.put, OStream.written, String.append_assoc]

theorem written_endl (o : OStream) : o.endl.written = o.written ++ "\n" := by
  simp [OStream.endl, OStream.flush, OStream.put, OStream.written, String.append_assoc]

theorem buf_endl (o : OStream) : o.endl.buf = "" := rfl

theorem dev_endl (o : OStream) : o.endl.dev = o.written ++ "\n" := by
  simp [OStream.endl, OStream.flush, OStream.put, OStream.written, String.append_assoc]

theorem put_put (o : OStream) (x y : String) : (o.put x).put y = o.put (x ++ y) := by
  simp [OStream.put, String.append_assoc]

theorem put_empty (o : OStream) : o.put "" = o := by
  simp [OStream.put]

/-! ## Joining rendered values -/

theorem intercalate_go_append (sep : String) (rest : List String) :
    ∀ p acc : String, String.intercalate.go (p ++ acc) sep rest
      = p ++ String.intercalate.go acc sep rest := by
  induction rest with
  | nil => intro p acc; rfl
  | cons x r ih =>
    intro p acc
    simp only [String.intercalate.go]
    rw [String.append_assoc, String.append_assoc, ih, String.append_assoc]

theorem intercalate_cons_cons (sep x y : String) (r : List String) :
    String.intercalate sep (x :: y :: r) = x ++ sep ++ String.intercalate sep (y :: r) := by
  simp only [String.intercalate, String.intercalate.go]
  rw [String.append_assoc, intercalate_go_append, intercalate_go_append, String.append_assoc]

theorem foldl_append_join (l : List String) :
    ∀ acc : String, l.foldl (fun r x => r ++ x) acc = acc ++ String.join l := by
  induction l with
  | nil => intro acc; simp [String.join]
  | cons x r ih =>
    intro acc
    simp only [String.join, List.foldl_cons]
    rw [ih, ih ("" ++ x), String.empty_append, String.append_assoc]

theorem join_cons (x : String) (l : List String) :
    String.join (x :: l) = x ++ String.join l := by
  simp only [String.join, List.foldl_cons]
  rw [foldl_append_join, String.empty_append]
  rfl

/-! ## The loops of the printer -/

theorem insert_good (o : OStream) (x : String) :
    Fmt.insert ⟨o, 0, false⟩ x = ⟨o.put x, 0, false⟩ := by
  simp [Fmt.insert, Fmt.pad]

theorem endl_good (o : OStream) (w : Nat) :
    Fmt.endl ⟨o, w, false⟩ = ⟨o.endl, w, false⟩ := by
  simp [Fmt.endl]

theorem print_one_text (n i : Nat) (o : OStream) (x : String) :
    print_one n (i, ⟨o, 0, false⟩) (Printable.text x)
      = Except.ok (i + 1, if i < n then ⟨(o.put x).put " ", 0, false⟩ else ⟨o.put x, 0, false⟩) := by
  by_cases hi : i < n <;> simp [print_one, Printable.put, insert_good, hi]

theorem print_each_text (n : Nat) (rest : List String) :
    ∀ (i : Nat) (o : OStream), i + rest.length = n + 1 →
      print_each n (i, ⟨o, 0, false⟩) (rest.map Printable.text)
        = Except.ok (i + rest.length,
          ⟨o.put (String.intercalate " " rest), 0, false⟩) := by
  induction rest with
  | nil => intro i o _; simp [print_each, String.intercalate, put_empty]
  | cons x r ih =>
    intro i o h
    cases r with
    | nil =>
      have hi : ¬ i < n := by simp at h; omega
      simp [print_each, print_one_text, hi, String.intercalate, String.intercalate.go]
    | cons y r =>
      have hi : i < n := by simp at h; omega
      have h1 : i + 1 + (y :: r).length = n + 1 := by simp at h ⊢; omega
      have e := ih (i + 1) ((o.put x).put " ") h1
      rw [List.map_cons, print_each, print_one_text]
      simp only [hi, if_true]
      rw [e, intercalate_cons_cons, put_put, put_put]
      simp only [String.append_assoc, List.length_cons]
      congr 2
      omega

theorem print_range_loop_text (items : List String) :
    ∀ o : OStream, print_range_loop ⟨o, 0, false⟩ (items.map Printable.text)
      = Except.ok ⟨o.put (String.join (items.map (fun x => x ++ "\n"))), 0, false⟩ := by
  induction items with
  | nil => intro o; simp [print_range_loop, String.join, put_empty]
  | cons x r ih =>
    intro o
    rw [List.map_cons, print_range_loop]
    simp only [print_range_step, Printable.put, insert_good]
    rw [ih, List.map_cons, join_cons, put_put, put_put]
    simp only [String.append_assoc]

theorem print_outcome_text (idText : ThreadId → String) (tid : ThreadId)
    (args : List String) (s : State) :
    print_outcome idText tid (args.map Printable.text) s
      = Except.ok (print idText tid (args.map Printable.text) s) ∧
    (print idText tid (args.map Printable.text) s).cout
      = OStream.endl (((((thread_id_str idText s tid).2.cout.put
          (thread_id_str idText s tid).1).put " ").put
            (String.intercalate " " args)).put reset_color) := by
  have e : print_each (args.map Printable.text).length
      (1, ((Fmt.start (thread_id_str idText s tid).2.cout).insert
        (thread_id_str idText s tid).1).insert " ") (args.map Printable.text)
      = Except.ok (1 + args.length,
        ⟨(((thread_id_str idText s tid).2.cout.put (thread_id_str idText s tid).1).put " ").put
          (String.intercalate " " args), 0, false⟩) := by
    rw [Fmt.start, insert_good, insert_good, List.length_map]
    exact print_each_text args.length args 1 _ (by omega)
  simp only [print, print_outcome, e, insert_good, endl_good, and_self]

theorem print_range_outcome_text (idText : ThreadId → String) (tid : ThreadId)
    (items : List String) (s : State) :
    print_range_outcome idText tid (items.map Printable.text) s
      = Except.ok (print_range idText tid (items.map Printable.text) s) ∧
    (print_range idText tid (items.map Printable.text) s).cout
      = OStream.endl (((((thread_id_str idText s tid).2.cout.put
          (thread_id_str idText s tid).1).put "\n").put
            (String.join (items.map (fun x => x ++ "\n")))).put reset_color) := by
  have e : print_range_loop
      (((Fmt.start (thread_id_str idText s tid).2.cout).insert
        (thread_id_str idText s tid).1).insert "\n") (items.map Printable.text)
      = Except.ok
        ⟨(((thread_id_str idText s tid).2.cout.put (thread_id_str idText s tid).1).put "\n").put
          (String.join (items.map (fun x => x ++ "\n"))), 0, false⟩ := by
    rw [Fmt.start, insert_good, insert_good]
    exact print_range_loop_text items _
  simp only [print_range, print_range_outcome, e, insert_good, endl_good, and_self]

theorem print_written (idText : ThreadId → String) (tid : ThreadId) (args : List String)
    (s : State) :
    (print idText tid (args.map Printable.text) s).cout.written
      = (thread_id_str idText s tid).2.cout.written
        ++ ((thread_id_str idText s tid).1 ++ " " ++ String.intercalate " " args
          ++ reset_color ++ "\n") := by
  rw [(print_outcome_text idText tid args s).2]
  simp only [written_endl, written_put, String.append_assoc]

theorem print_range_written (idText : ThreadId → String) (tid : ThreadId)
    (items : List String) (s : State) :
    (print_range idText tid (items.map Printable.text) s).cout.written
      = (thread_id_str idText s tid).2.cout.written
        ++ ((thread_id_str idText s tid).1 ++ "\n"
          ++ String.join (items.map (fun x => x ++ "\n")) ++ reset_color ++ "\n") := by
  rw [(print_range_outcome_text idText tid items s).2]
  simp only [written_endl, written_put, String.append_assoc]

theorem print_alloc (idText : ThreadId → String) (tid : ThreadId) (args : List Printable)
    (s : State) :
    (print idText tid args s).color_enabled = (thread_id_str idText s tid).2.color_enabled ∧
      (print idText tid args s).it = (thread_id_str idText s tid).2.it ∧
      (print idText tid args s).thread_color_map
        = (thread_id_str idText s tid).2.thread_color_map := by
  simp only [print, print_outcome]
  generalize print_each _ _ _ = e
  cases e <;> exact ⟨rfl, rfl, rfl⟩

theorem print_range_alloc (idText : ThreadId → String) (tid : ThreadId)
    (items : List Printable) (s : State) :
    (print_range idText tid items s).color_enabled
        = (thread_id_str idText s tid).2.color_enabled ∧
      (print_range idText tid items s).it = (thread_id_str idText s tid).2.it ∧
      (print_range idText tid items s).thread_color_map
        = (thread_id_str idText s tid).2.thread_color_map := by
  simp only [print_range, print_range_outcome]
  generalize print_range_loop _ _ = e
  cases e <;> exact ⟨rfl, rfl, rfl⟩

theorem thread_color_cout (s : State) (t : ThreadId) : (thread_color s t).2.cout = s.cout := by
  cases h : find s.thread_color_map t with
  | none => rw [thread_color_fresh s t h]
  | some c => rw [thread_color_bound s t c h]

theorem thread_color_flag (s : State) (t : ThreadId) :
    (thread_color s t).2.color_enabled = s.color_enabled := by
  cases h : find s.thread_color_map t with
  | none => rw [thread_color_fresh s t h]
  | some c => rw [thread_color_bound s t c h]

theorem thread_id_str_cout (idText : ThreadId → String) (s : State) (t : ThreadId) :
    (thread_id_str idText s t).2.cout = s.cout := by
  unfold thread_id_str
  split
  · exact thread_color_cout s t
  · rfl

theorem thread_id_str_flag (idText : ThreadId → String) (s : State) (t : ThreadId) :
    (thread_id_str idText s t).2.color_enabled = s.color_enabled := by
  unfold thread_id_str
  split
  · exact thread_color_flag s t
  · rfl

theorem thread_id_str_off (idText : ThreadId → String) (s : State) (t : ThreadId)
    (h : s.color_enabled = false) :
    thread_id_str idText s t = ("[" ++ idText t ++ "]", s) := by
  simp [thread_id_str, h]

theorem insert_extends (f : Fmt) (x : String) :
    ∃ r, (f.insert x).out.written = f.out.written ++ r := by
  unfold Fmt.insert
  split
  · exact ⟨"", by simp⟩
  · exact ⟨Fmt.pad f.width x ++ x, written_put _ _⟩

theorem endl_extends (f : Fmt) : ∃ r, f.endl.out.written = f.out.written ++ r := by
  unfold Fmt.endl
  split
  · exact ⟨"", by simp⟩
  · exact ⟨"\n", written_endl _⟩

theorem put_extends (f : Fmt) (x : Printable) :
    (∀ g, Printable.put f x = Except.error g → ∃ r, g.out.written = f.out.written ++ r) ∧
      (∀ g, Printable.put f x = Except.ok g → ∃ r, g.out.written = f.out.written ++ r) := by
  cases x with
  | text t =>
    refine ⟨fun g h => by simp [Printable.put] at h, fun g h => ?_⟩
    simp only [Printable.put, Except.ok.injEq] at h
    rw [← h]; exact insert_extends f t
  | setw n =>
    refine ⟨fun g h => by simp [Printable.put] at h, fun g h => ?_⟩
    simp only [Printable.put, Except.ok.injEq] at h
    rw [← h]; exact ⟨"", by simp⟩
  | nullbuf =>
    refine ⟨fun g h => by simp [Printable.put] at h, fun g h => ?_⟩
    simp only [Printable.put, Except.ok.injEq] at h
    rw [← h]
    split <;> exact ⟨"", by simp⟩
  | throwing =>
    refine ⟨fun g h => ?_, fun g h => by simp [Printable.put] at h⟩
    simp only [Printable.put, Except.error.injEq] at h
    rw [← h]; exact ⟨"", by simp⟩

theorem print_one_extends (n : Nat) (st : Nat × Fmt) (x : Printable) :
    (∀ g, print_one n st x = Except.error g → ∃ r, g.out.written = st.2.out.written ++ r) ∧
      (∀ st1, print_one n st x = Except.ok st1 →
        ∃ r, st1.2.out.written = st.2.out.written ++ r) := by
  obtain ⟨he, ho⟩ := put_extends st.2 x
  cases hp : Printable.put st.2 x with
  | error g =>
    simp only [print_one, hp]
    refine ⟨fun g1 h => ?_, fun st1 h => by simp at h⟩
    simp only [Except.error.injEq] at h
    rw [← h]; exact he g hp
  | ok g =>
    obtain ⟨r, hr⟩ := ho g hp
    simp only [print_one, hp]
    by_cases hi : st.1 < n
    · simp only [hi, if_true]
      refine ⟨fun g1 h => by simp at h, fun st1 h => ?_⟩
      simp only [Except.ok.injEq] at h
      obtain ⟨r1, hr1⟩ := insert_extends g " "
      rw [← h]
      exact ⟨r ++ r1, by simp only [hr1, hr, String.append_assoc]⟩
    · simp only [hi, if_false]
      refine ⟨fun g1 h => by simp at h, fun st1 h => ?_⟩
      simp only [Except.ok.injEq] at h
      rw [← h]
      exact ⟨r, hr⟩

theorem print_each_extends (n : Nat) (args : List Printable) :
    ∀ st : Nat × Fmt,
      (∀ g, print_each n st args = Except.error g →
        ∃ r, g.out.written = st.2.out.written ++ r) ∧
      (∀ st1, print_each n st args = Except.ok st1 →
        ∃ r, st1.2.out.written = st.2.out.written ++ r) := by
  induction args with
  | nil =>
    intro st
    refine ⟨fun g h => by simp [print_each] at h, fun st1 h => ?_⟩
    simp only [print_each, Except.ok.injEq] at h
    rw [← h]; exact ⟨"", by simp⟩
  | cons x r ih =>
    intro st
    obtain ⟨he, ho⟩ := print_one_extends n st x
    cases hp : print_one n st x with
    | error g =>
      simp only [print_each, hp]
      refine ⟨fun g1 h => ?_, fun st1 h => by simp at h⟩
      simp only [Except.error.injEq] at h
      rw [← h]; exact he g hp
    | ok st2 =>
      obtain ⟨r2, hr2⟩ := ho st2 hp
      obtain ⟨ie, io⟩ := ih st2
      simp only [print_each, hp]
      refine ⟨fun g1 h => ?_, fun st1 h => ?_⟩
      · obtain ⟨r3, hr3⟩ := ie g1 h
        exact ⟨r2 ++ r3, by simp only [hr3, hr2, String.append_assoc]⟩
      · obtain ⟨r3, hr3⟩ := io st1 h
        exact ⟨r2 ++ r3, by simp only [hr3, hr2, String.append_assoc]⟩

theorem print_range_loop_extends (items : List Printable) :
    ∀ f : Fmt,
      (∀ g, print_range_loop f items = Except.error g →
        ∃ r, g.out.written = f.out.written ++ r) ∧
      (∀ g, print_range_loop f items = Except.ok g →
        ∃ r, g.out.written = f.out.written ++ r) := by
  induction items with
  | nil =>
    intro f
    refine ⟨fun g h => by simp [print_range_loop] at h, fun g h => ?_⟩
    simp only [print_range_loop, Except.ok.injEq] at h
    rw [← h]; exact ⟨"", by simp⟩
  | cons x r ih =>
    intro f
    obtain ⟨he, ho⟩ := put_extends f x
    cases hp : Printable.put f x with
    | error g =>
      simp only [print_range_loop, print_range_step, hp]
      refine ⟨fun g1 h => ?_, fun g1 h => by simp at h⟩
      simp only [Except.error.injEq] at h
      rw [← h]; exact he g hp
    | ok g =>
      obtain ⟨r1, hr1⟩ := ho g hp
      obtain ⟨r2, hr2⟩ := insert_extends g "\n"
      obtain ⟨ie, io⟩ := ih (g.insert "\n")
      simp only [print_range_loop, print_range_step, hp]
      refine ⟨fun g1 h => ?_, fun g1 h => ?_⟩
      · obtain ⟨r3, hr3⟩ := ie g1 h
        exact ⟨r1 ++ r2 ++ r3, by simp only [hr3, hr2, hr1, String.append_assoc]⟩
      · obtain ⟨r3, hr3⟩ := io g1 h
        exact ⟨r1 ++ r2 ++ r3, by simp only [hr3, hr2, hr1, String.append_assoc]⟩

theorem print_starts_with_tag (idText : ThreadId → String) (tid : ThreadId)
    (args : List Printable) (s : State) :
    ∃ rest, (print idText tid args s).cout.written
      = s.cout.written ++ ((thread_id_str idText s tid).1 ++ " " ++ rest) := by
  obtain ⟨he, ho⟩ := print_each_extends args.length args
    (1, ((Fmt.start (thread_id_str idText s tid).2.cout).insert
      (thread_id_str idText s tid).1).insert " ")
  have hf : (((Fmt.start (thread_id_str idText s tid).2.cout).insert
      (thread_id_str idText s tid).1).insert " ").out.written
      = s.cout.written ++ ((thread_id_str idText s tid).1 ++ " ") := by
    rw [Fmt.start, insert_good, insert_good, written_put, written_put, thread_id_str_cout,
      String.append_assoc]
  simp only [print, print_outcome]
  cases hp : print_each args.length
      (1, ((Fmt.start (thread_id_str idText s tid).2.cout).insert
        (thread_id_str idText s tid).1).insert " ") args with
  | error g =>
    obtain ⟨r, hr⟩ := he g hp
    exact ⟨r, by simp only [hr, hf, String.append_assoc]⟩
  | ok st1 =>
    obtain ⟨r, hr⟩ := ho st1 hp
    obtain ⟨r1, hr1⟩ := insert_extends st1.2 reset_color
    obtain ⟨r2, hr2⟩ := endl_extends (st1.2.insert reset_color)
    exact ⟨r ++ r1 ++ r2, by simp only [hr2, hr1, hr, hf, String.append_assoc]⟩

theorem print_range_starts_with_tag (idText : ThreadId → String) (tid : ThreadId)
    (items : List Printable) (s : State) :
    ∃ rest, (print_range idText tid items s).cout.written
      = s.cout.written ++ ((thread_id_str idText s tid).1 ++ "\n" ++ rest) := by
  obtain ⟨he, ho⟩ := print_range_loop_extends items
    (((Fmt.start (thread_id_str idText s tid).2.cout).insert
      (thread_id_str idText s tid).1).insert "\n")
  have hf : (((Fmt.start (thread_id_str idText s tid).2.cout).insert
      (thread_id_str idText s tid).1).insert "\n").out.written
      = s.cout.written ++ ((thread_id_str idText s tid).1 ++ "\n") := by
    rw [Fmt.start, insert_good, insert_good, written_put, written_put, thread_id_str_cout,
      String.append_assoc]
  simp only [print_range, print_range_outcome]
  cases hp : print_range_loop
      (((Fmt.start (thread_id_str idText s tid).2.cout).insert
        (thread_id_str idText s tid).1).insert "\n") items with
  | error g =>
    obtain ⟨r, hr⟩ := he g hp
    exact ⟨r, by simp only [hr, hf, String.append_assoc]⟩
  | ok g =>
    obtain ⟨r, hr⟩ := ho g hp
    obtain ⟨r1, hr1⟩ := insert_extends g reset_color
    obtain ⟨r2, hr2⟩ := endl_extends (g.insert reset_color)
    exact ⟨r ++ r1 ++ r2, by simp only [hr2, hr1, hr, hf, String.append_assoc]⟩

/-! ## Output format of the printer -/

/-- Claim C10: after `set_color_enabled x`, `is_color_enabled` returns `x` and
leaves the state as it is; calling `set_color_enabled x` twice in a row leaves the
same state as calling it once, hence the same result of any later `print` or
`print_range`. -/
theorem set_color_enabled_idempotent (s : State) (x : Bool) :
    (is_color_enabled (set_color_enabled x s)).1 = x ∧
      (is_color_enabled (set_color_enabled x s)).2 = set_color_enabled x s ∧
      set_color_enabled x (set_color_enabled x s) = set_color_enabled x s ∧
      (∀ (idText : ThreadId → String) (tid : ThreadId) (args : List Printable),
        print idText tid args (set_color_enabled x (set_color_enabled x s))
          = print idText tid args (set_color_enabled x s)) ∧
      (∀ (idText : ThreadId → String) (tid : ThreadId) (items : List Printable),
        print_range idText tid items (set_color_enabled x (set_color_enabled x s))
          = print_range idText tid items (set_color_enabled x s)) := by
  have h : set_color_enabled x (set_color_enabled x s) = set_color_enabled x s := rfl
  refine ⟨rfl, rfl, h, ?_, ?_⟩
  · intro idText tid args; rw [h]
  · intro idText tid items; rw [h]

/-! ## The palette invariant -/

theorem find_mem (m : List (ThreadId × String)) (t : ThreadId) (c : String)
    (h : find m t = some c) : (t, c) ∈ m := by
  induction m with
  | nil => simp [find] at h
  | cons p r ih =>
    by_cases hp : p.1 = t
    · simp only [find, if_pos hp, Option.some.injEq] at h
      have e : p = (t, c) := Prod.ext hp h
      simp [e]
    · simp only [find, if_neg hp] at h
      exact List.mem_cons_of_mem _ (ih h)

theorem mem_assign (m : List (ThreadId × String)) (k : ThreadId) (v : String)
    (q : ThreadId × String) (h : q ∈ assign m k v) : q ∈ m ∨ q = (k, v) := by
  induction m with
  | nil => right; simpa [assign] using h
  | cons p r ih =>
    by_cases hp : p.1 = k
    · simp only [assign, if_pos hp, List.mem_cons] at h
      rcases h with h | h
      · exact Or.inr h
      · exact Or.inl (List.mem_cons_of_mem _ h)
    · simp only [assign, if_neg hp, List.mem_cons] at h
      rcases h with h | h
      · exact Or.inl (h ▸ List.mem_cons_self _ _)
      · rcases ih h with h1 | h1
        · exact Or.inl (List.mem_cons_of_mem _ h1)
        · exact Or.inr h1

theorem next_color_mem (s : State) (h : s.it ≤ 15) : (next_color s).1 ∈ colors :=
  List.getElem?_mem (next_color_fst s h).symm

theorem thread_color_palette_ok (s : State) (t : ThreadId) (h : palette_ok s) :
    palette_ok (thread_color s t).2 ∧ (thread_color s t).1 ∈ colors := by
  have hit : s.it ≤ 15 := h.1
  cases hf : find s.thread_color_map t with
  | some c =>
    rw [thread_color_bound s t c hf]
    exact ⟨h, h.2 (t, c) (find_mem _ _ _ hf)⟩
  | none =>
    rw [thread_color_fresh s t hf]
    refine ⟨⟨?_, ?_⟩, next_color_mem s hit⟩
    · show (next_color s).2.it ≤ 15
      rw [next_color_it s hit]
      omega
    · intro q hq
      rcases mem_assign _ _ _ _ hq with h1 | h1
      · exact h.2 q h1
      · rw [h1]; exact next_color_mem s hit

theorem thread_id_str_palette_ok (idText : ThreadId → String) (s : State) (t : ThreadId)
    (h : palette_ok s) : palette_ok (thread_id_str idText s t).2 := by
  unfold thread_id_str
  split
  · exact (thread_color_palette_ok s t h).1
  · exact h

theorem reachable_palette_ok (idText : ThreadId → String) (s : State)
    (h : Reachable idText s) : palette_ok s := by
  induction h with
  | start => decide
  | set_color_enabled enable s _ ih => exact ih
  | is_color_enabled s _ ih => exact ih
  | print_range tid items s _ ih =>
    have h := print_range_alloc idText tid items s
    unfold palette_ok
    rw [h.2.1, h.2.2]
    exact thread_id_str_palette_ok idText s tid ih
  | print tid args s _ ih =>
    have h := print_alloc idText tid args s
    unfold palette_ok
    rw [h.2.1, h.2.2]
    exact thread_id_str_palette_ok idText s tid ih

/-! ## The reset sequence is not part of a tag -/

theorem colors_chars (c : String) (hc : c ∈ colors) :
    ∃ d1 d2 : Char, c.data = [d1, d2] ∧ d1 ≠ '0' ∧ d1 ≠ '\x1b' ∧ d2 ≠ '\x1b' := by
  simp only [colors, List.mem_cons, List.mem_singleton, List.not_mem_nil, or_false] at hc
  rcases hc with rfl | rfl | rfl | rfl | rfl | rfl | rfl | rfl | rfl | rfl | rfl | rfl | rfl
      | rfl | rfl <;>
    exact ⟨_, _, rfl, by decide, by decide, by decide⟩

theorem no_reset_concat (l : List Char) (hl : ¬ reset_color.data <:+: l) :
    ¬ reset_color.data <:+: l ++ [']'] := by
  intro h
  rcases List.infix_concat_iff.mp h with h1 | h1
  · rcases List.suffix_concat_iff.mp h1 with h2 | ⟨t, h2, _⟩
    · exact absurd h2 (by decide)
    · have h3 := congrArg List.reverse h2
      have e : reset_color.data = ['\x1b', '[', '0', 'm'] := rfl
      rw [e] at h3
      simp at h3
  · exact hl h1

theorem no_reset_cons (x : Char) (l : List Char) (hx : x ≠ '\x1b')
    (hl : ¬ reset_color.data <:+: l) : ¬ reset_color.data <:+: x :: l := by
  intro h
  rcases List.infix_cons_iff.mp h with h1 | h1
  · have e : reset_color.data = ['\x1b', '[', '0', 'm'] := rfl
    rw [e, List.cons_prefix_cons] at h1
    exact hx h1.1.symm
  · exact hl h1

theorem no_reset_esc (d : Char) (l : List Char) (hd : d ≠ '0')
    (hl : ¬ reset_color.data <:+: '[' :: d :: l) :
    ¬ reset_color.data <:+: '\x1b' :: '[' :: d :: l := by
  intro h
  rcases List.infix_cons_iff.mp h with h1 | h1
  · have e : reset_color.data = ['\x1b', '[', '0', 'm'] := rfl
    rw [e, List.cons_prefix_cons, List.cons_prefix_cons, List.cons_prefix_cons] at h1
    exact hd h1.2.2.1.symm
  · exact hl h1

theorem no_reset_plain_tag (x : String) (hx : ¬ reset_color.data <:+: x.data) :
    ¬ reset_color.data <:+: ("[" ++ x ++ "]").data := by
  have e : ("[" ++ x ++ "]").data = '[' :: (x.data ++ [']']) := by
    simp only [String.data_append]; rfl
  rw [e]
  exact no_reset_cons _ _ (by decide) (no_reset_concat _ hx)

theorem no_reset_color_tag (c x : String) (hc : c ∈ colors)
    (hx : ¬ reset_color.data <:+: x.data) :
    ¬ reset_color.data <:+: ("\x1b[" ++ c ++ "m" ++ "[" ++ x ++ "]").data := by
  obtain ⟨d1, d2, hd, h1, h2, h3⟩ := colors_chars c hc
  have e : ("\x1b[" ++ c ++ "m" ++ "[" ++ x ++ "]").data
      = '\x1b' :: '[' :: d1 :: d2 :: 'm' :: '[' :: (x.data ++ [']']) := by
    simp only [String.data_append, hd]; rfl
  rw [e]
  apply no_reset_esc _ _ h1
  apply no_reset_cons _ _ (by decide)
  apply no_reset_cons _ _ h2
  apply no_reset_cons _ _ h3
  apply no_reset_cons _ _ (by decide)
  apply no_reset_cons _ _ (by decide)
  exact no_reset_concat _ hx

/-- Claim C6: in a reachable state `thread_id_str` returns the identity text between
brackets when the flag is off, and that same text preceded by `ESC [ c m` when the
flag is on, `c` being the label `thread_color` returns, an entry of `colors`;
the identity text is included as it is, and the tag contains the reset sequence
in neither case, the platform text of an identity not containing it. -/
theorem thread_id_str_format (idText : ThreadId → String) (s : State) (tid : ThreadId)
    (hr : Reachable idText s) (ht : ¬ reset_color.data <:+: (idText tid).data) :
    (s.color_enabled = false →
        (thread_id_str idText s tid).1 = "[" ++ idText tid ++ "]") ∧
      (s.color_enabled = true →
        (thread_color s tid).1 ∈ colors ∧
        (thread_id_str idText s tid).1
          = "\x1b" ++ "[" ++ (thread_color s tid).1 ++ "m" ++ "[" ++ idText tid ++ "]") ∧
      ¬ reset_color.data <:+: (thread_id_str idText s tid).1.data := by
  have hok := reachable_palette_ok idText s hr
  have hc := (thread_color_palette_ok s tid hok).2
  have hoff : s.color_enabled = false →
      (thread_id_str idText s tid).1 = "[" ++ idText tid ++ "]" := by
    intro h; simp [thread_id_str, h]
  have hon : s.color_enabled = true → (thread_id_str idText s tid).1
      = "\x1b[" ++ (thread_color s tid).1 ++ "m" ++ "[" ++ idText tid ++ "]" := by
    intro h; simp [thread_id_str, h]
  refine ⟨hoff, fun h => ⟨hc, hon h⟩, ?_⟩
  cases h : s.color_enabled with
  | false => rw [hoff h]; exact no_reset_plain_tag _ ht
  | true => rw [hon h]; exact no_reset_color_tag _ _ hc ht

/-- Witness for C6 at process start, the identity 3 rendered as the digit 7. -/
theorem thread_id_str_format_witness :
    (thread_id_str (fun _ => "7") initial 3).1 = "\x1b[31m[7]" ∧
      ¬ reset_color.data <:+: (thread_id_str (fun _ => "7") initial 3).1.data :=
  ⟨by decide,
    (thread_id_str_format (fun _ => "7") initial 3 (Reachable.start) (by decide)).2.2⟩

/-! ## Lookups of a known identity -/

/-- Claim C11: when the identity is already bound in the map, `thread_color`
returns the bound label and leaves the whole state, so the map and the cursor,
as it was. -/
theorem thread_color_present (s : State) (t : ThreadId) (c : String)
    (h : find s.thread_color_map t = some c) :
    (thread_color s t).1 = c ∧ (thread_color s t).2 = s ∧
      (thread_color s t).2.thread_color_map = s.thread_color_map ∧
      (thread_color s t).2.it = s.it := by
  have e : thread_color s t = (c, s) := by simp [thread_color, h]
  rw [e]
  exact ⟨rfl, rfl, rfl, rfl⟩

/-- Witness for C11: identity 5 looked up again after its first lookup. -/
theorem thread_color_present_witness :
    find (thread_color initial 5).2.thread_color_map 5 = some "31" ∧
      (thread_color (thread_color initial 5).2 5).1 = "31" ∧
      (thread_color (thread_color initial 5).2 5).2 = (thread_color initial 5).2 :=
  ⟨by decide,
    (thread_color_present (thread_color initial 5).2 5 "31" (by decide)).1,
    (thread_color_present (thread_color initial 5).2 5 "31" (by decide)).2.1⟩

/-! ## The cursor of `next_color` -/

theorem next_color_eq (s : State) :
    next_color s = (colors.getD (next_color_at s) "",
      ⟨s.color_enabled, next_color_at s + 1, s.thread_color_map, s.cout⟩) := rfl

theorem next_color_at_lt (s : State) (h : s.it ≤ 15) : next_color_at s < 15 := by
  have hl : colors.length = 15 := rfl
  unfold next_color_at
  rw [hl]
  split <;> omega

theorem next_color_at_mod (s : State) (h : s.it ≤ 15) : next_color_at s = s.it % 15 := by
  have hl : colors.length = 15 := rfl
  unfold next_color_at
  rw [hl]
  split <;> omega

theorem next_colors_it (n : Nat) :
    (next_colors n initial).it = if n = 0 then 0 else (n - 1) % 15 + 1 := by
  induction n with
  | zero => rfl
  | succ n ih =>
    have hle : (next_colors n initial).it ≤ 15 := by
      rw [ih]; split <;> omega
    show (next_color (next_colors n initial)).2.it = _
    rw [next_color_it _ hle, ih]
    by_cases h0 : n = 0
    · simp [h0]
    · simp only [h0, if_false, Nat.succ_ne_zero, Nat.add_sub_cancel]
      omega

theorem next_colors_it_le (n : Nat) : (next_colors n initial).it ≤ 15 := by
  rw [next_colors_it]; split <;> omega

theorem next_color_after_last (s : State) (h : s.it ≤ 15) (hl : (next_color s).1 = "97") :
    (next_color (next_color s).2).1 = "31" := by
  have h1 := next_color_fst s h
  have hk : s.it % 15 < 15 := Nat.mod_lt _ (by decide)
  have h14 : s.it % 15 = 14 := by
    rw [hl] at h1
    generalize s.it % 15 = k at h1 hk
    interval_cases k <;> first | rfl | (exact absurd h1 (by decide))
  have hit : (next_color s).2.it = 15 := by rw [next_color_it s h, h14]
  have h2 := next_color_fst (next_color s).2 (by rw [hit])
  rw [hit] at h2
  exact Option.some.inj (h2.trans (by decide))

/-- Claim C12: after any number of `next_color` calls from process start, the next
call reads `colors` at an offset below 15, never at the past-the-end position,
and returns the entry found there, one of the 15 palette entries; and when it
returns the last entry, 97, the call after it returns the first entry, 31. -/
theorem next_color_in_palette (n : Nat) :
    next_color (next_colors n initial)
        = (colors.getD (next_color_at (next_colors n initial)) "",
          ⟨(next_colors n initial).color_enabled, next_color_at (next_colors n initial) + 1,
            (next_colors n initial).thread_color_map, (next_colors n initial).cout⟩) ∧
      next_color_at (next_colors n initial) < colors.length ∧
      colors[next_color_at (next_colors n initial)]? = some (next_color (next_colors n initial)).1 ∧
      (next_color (next_colors n initial)).1 ∈ colors ∧
      (next_color (next_colors n initial)).1 = colors.getD (n % 15) "" ∧
      ((next_color (next_colors n initial)).1 = "97" →
        (next_color (next_colors (n + 1) initial)).1 = "31") := by
  have hle := next_colors_it_le n
  have hat := next_color_at_mod _ hle
  have hfst := next_color_fst _ hle
  refine ⟨rfl, next_color_at_lt _ hle, ?_, next_color_mem _ hle, ?_,
    next_color_after_last _ hle⟩
  · rw [hat]; exact hfst.symm
  · have hm : (next_colors n initial).it % 15 = n % 15 := by
      rw [next_colors_it]; split <;> omega
    rw [hm] at hfst
    rw [List.getD_eq_getElem?_getD, ← hfst]
    rfl

/-- Witness for C12: the fifteenth call returns 97 and the sixteenth returns 31. -/
theorem next_color_in_palette_witness :
    (next_color (next_colors 14 initial)).1 = "97" ∧
      (next_color (next_colors 15 initial)).1 = "31" :=
  ⟨by decide, (next_color_in_palette 14).2.2.2.2.2 (by decide)⟩

/-! ## Process start -/

/-- Claim C13: at process start the flag is on, `is_color_enabled` returns true with
no earlier `set_color_enabled`, and the first `print` (or `print_range`) of the
process starts with the color-set escape of the first palette entry, `ESC[31m`,
whatever its arguments; with plain-text arguments the whole output follows. -/
theorem color_enabled_at_start (idText : ThreadId → String) (tid : ThreadId) :
    initial.color_enabled = true ∧
      (is_color_enabled initial).1 = true ∧
      (thread_id_str idText initial tid).1 = "\x1b[31m" ++ "[" ++ idText tid ++ "]" ∧
      (∀ args : List String,
        (print idText tid (args.map Printable.text) initial).cout.written
          = "\x1b[31m" ++ ("[" ++ idText tid ++ "]" ++ " " ++ String.intercalate " " args
            ++ reset_color ++ "\n")) ∧
      (∀ items : List String,
        (print_range idText tid (items.map Printable.text) initial).cout.written
          = "\x1b[31m" ++ ("[" ++ idText tid ++ "]" ++ "\n"
            ++ String.join (items.map (fun x => x ++ "\n")) ++ reset_color ++ "\n")) ∧
      (∀ args : List Printable, ∃ rest,
        (print idText tid args initial).cout.written
          = "\x1b[31m" ++ ("[" ++ idText tid ++ "]" ++ " " ++ rest)) ∧
      (∀ items : List Printable, ∃ rest,
        (print_range idText tid items initial).cout.written
          = "\x1b[31m" ++ ("[" ++ idText tid ++ "]" ++ "\n" ++ rest)) := by
  have htag : (thread_id_str idText initial tid).1
      = "\x1b[31m" ++ "[" ++ idText tid ++ "]" := by
    simp [thread_id_str, thread_color, initial, find, next_color, colors,
      String.append_assoc]
  have hw : initial.cout.written = "" := rfl
  refine ⟨rfl, rfl, htag, ?_, ?_, ?_, ?_⟩
  · intro args
    rw [print_written, thread_id_str_cout, htag, hw]
    simp only [String.empty_append, String.append_assoc]
  · intro items
    rw [print_range_written, thread_id_str_cout, htag, hw]
    simp only [String.empty_append, String.append_assoc]
  · intro args
    obtain ⟨rest, h⟩ := print_starts_with_tag idText tid args initial
    refine ⟨rest, ?_⟩
    rw [h, htag, hw]
    simp only [String.empty_append, String.append_assoc]
  · intro items
    obtain ⟨rest, h⟩ := print_range_starts_with_tag idText tid items initial
    refine ⟨rest, ?_⟩
    rw [h, htag, hw]
    simp only [String.empty_append, String.append_assoc]

/-! ## The reference allocator of the specification -/

theorem color_for_step (s : State) (a : SpecAllocator) (t : ThreadId)
    (hle : s.it ≤ 15) (hc : a.cursor = s.it % 15) (hm : a.map = s.thread_color_map) :
    (thread_color s t).1 = (color_for a t).1 ∧
      (thread_color s t).2.it ≤ 15 ∧
      (color_for a t).2.cursor = (thread_color s t).2.it % 15 ∧
      (color_for a t).2.map = (thread_color s t).2.thread_color_map := by
  have hl : colors.length = 15 := rfl
  cases hf : find s.thread_color_map t with
  | some c =>
    have e : color_for a t = (c, a) := by simp [color_for, hm, hf]
    rw [thread_color_bound s t c hf, e]
    exact ⟨rfl, hle, hc, hm⟩
  | none =>
    have e : color_for a t
        = (colors.getD a.cursor "",
          ⟨(a.cursor + 1) % colors.length, assign a.map t (colors.getD a.cursor "")⟩) := by
      simp [color_for, hm, hf]
    have hat : next_color_at s = a.cursor := by rw [next_color_at_mod s hle, hc]
    have hlab : (next_color s).1 = colors.getD a.cursor "" := by
      rw [next_color_eq, hat]
    have hit : (next_color s).2.it = a.cursor + 1 := by
      rw [next_color_eq, hat]
    have hlt : a.cursor < 15 := by rw [hc]; exact Nat.mod_lt _ (by decide)
    rw [thread_color_fresh s t hf, e]
    refine ⟨hlab, ?_, ?_, ?_⟩
    · show (next_color s).2.it ≤ 15
      rw [hit]; omega
    · show (a.cursor + 1) % colors.length = (next_color s).2.it % 15
      rw [hit, hl]
    · show assign a.map t (colors.getD a.cursor "")
        = assign s.thread_color_map t (next_color s).1
      rw [hm, hlab]

theorem color_fors_sim (ts : List ThreadId) :
    ∀ (s : State) (a : SpecAllocator), s.it ≤ 15 → a.cursor = s.it % 15 →
      a.map = s.thread_color_map →
      (thread_colors s ts).1 = (color_fors a ts).1 ∧
        (color_fors a ts).2.cursor = (thread_colors s ts).2.it % 15 ∧
        (color_fors a ts).2.map = (thread_colors s ts).2.thread_color_map := by
  induction ts with
  | nil => intro s a _ hc hm; exact ⟨rfl, hc, hm⟩
  | cons t r ih =>
    intro s a hle hc hm
    obtain ⟨h1, h2, h3, h4⟩ := color_for_step s a t hle hc hm
    obtain ⟨k1, k2, k3⟩ := ih (thread_color s t).2 (color_for a t).2 h2 h3 h4
    refine ⟨?_, k2, k3⟩
    show (thread_color s t).1 :: (thread_colors (thread_color s t).2 r).1
      = (color_for a t).1 :: (color_fors (color_for a t).2 r).1
    rw [h1, k1]

/-- Claim C14: started from their initial states and given the same finite sequence
of identities, repeated or not, the allocator of the code (`thread_color` over
`next_color`, which wraps its cursor lazily) and the reference allocator
`color_for` of the specification (which wraps it at once) return the same label
at every call and hold the same map; their cursors agree modulo 15, the code one
resting at 15 after the last palette entry where the reference one is at 0. -/
theorem thread_color_refines_color_for (ts : List ThreadId) :
    (thread_colors initial ts).1 = (color_fors spec_initial ts).1 ∧
      (color_fors spec_initial ts).2.map = (thread_colors initial ts).2.thread_color_map ∧
      (color_fors spec_initial ts).2.cursor = (thread_colors initial ts).2.it % 15 ∧
      (thread_colors initial (List.range 15)).2.it = 15 ∧
      (color_fors spec_initial (List.range 15)).2.cursor = 0 := by
  obtain ⟨h1, h2, h3⟩ := color_fors_sim ts initial spec_initial (by decide) rfl rfl
  exact ⟨h1, h3, h2, by decide, by decide⟩

/-! ## The cursor and the size of the map -/

theorem assign_fresh (m : List (ThreadId × String)) (k : ThreadId) (v : String)
    (h : find m k = none) : assign m k v = m ++ [(k, v)] := by
  induction m with
  | nil => rfl
  | cons p r ih =>
    by_cases hp : p.1 = k
    · simp [find, hp] at h
    · simp only [find, if_neg hp] at h
      simp only [assign, if_neg hp, ih h, List.cons_append]

theorem find_none_not_key (m : List (ThreadId × String)) (k : ThreadId)
    (h : find m k = none) : k ∉ m.map Prod.fst := by
  induction m with
  | nil => simp
  | cons p r ih =>
    by_cases hp : p.1 = k
    · simp [find, hp] at h
    · simp only [find, if_neg hp] at h
      simp only [List.map_cons, List.mem_cons, not_or]
      exact ⟨fun e => hp e.symm, ih h⟩

theorem thread_color_cursor (s : State) (t : ThreadId)
    (hk : (s.thread_color_map.map Prod.fst).Nodup)
    (hc : s.it = if s.thread_color_map.length = 0 then 0
      else (s.thread_color_map.length - 1) % 15 + 1) :
    ((thread_color s t).2.thread_color_map.map Prod.fst).Nodup ∧
      (thread_color s t).2.it = if (thread_color s t).2.thread_color_map.length = 0 then 0
        else ((thread_color s t).2.thread_color_map.length - 1) % 15 + 1 := by
  cases hf : find s.thread_color_map t with
  | some c => rw [thread_color_bound s t c hf]; exact ⟨hk, hc⟩
  | none =>
    have hle : s.it ≤ 15 := by rw [hc]; split <;> omega
    rw [thread_color_fresh s t hf]
    simp only [assign_fresh _ _ _ hf, List.map_append, List.map_cons, List.map_nil,
      List.length_append, List.length_cons, List.length_nil, next_color_it s hle]
    refine ⟨?_, ?_⟩
    · rw [List.nodup_append]
      refine ⟨hk, List.nodup_singleton _, ?_⟩
      intro x hx hx1
      have : x = t := by simpa using hx1
      exact find_none_not_key _ _ hf (this ▸ hx)
    · rw [hc]
      by_cases h0 : s.thread_color_map.length = 0
      · simp [h0]
      · simp only [h0, if_false, Nat.add_eq_zero, one_ne_zero, and_false, Nat.add_sub_cancel]
        omega

theorem thread_id_str_cursor (idText : ThreadId → String) (s : State) (t : ThreadId)
    (hk : (s.thread_color_map.map Prod.fst).Nodup)
    (hc : s.it = if s.thread_color_map.length = 0 then 0
      else (s.thread_color_map.length - 1) % 15 + 1) :
    ((thread_id_str idText s t).2.thread_color_map.map Prod.fst).Nodup ∧
      (thread_id_str idText s t).2.it
        = if (thread_id_str idText s t).2.thread_color_map.length = 0 then 0
          else ((thread_id_str idText s t).2.thread_color_map.length - 1) % 15 + 1 := by
  unfold thread_id_str
  split
  · exact thread_color_cursor s t hk hc
  · exact ⟨hk, hc⟩

theorem reachable_cursor (idText : ThreadId → String) (s : State)
    (h : Reachable idText s) :
    (s.thread_color_map.map Prod.fst).Nodup ∧
      s.it = if s.thread_color_map.length = 0 then 0
        else (s.thread_color_map.length - 1) % 15 + 1 := by
  induction h with
  | start => exact ⟨List.nodup_nil, rfl⟩
  | set_color_enabled enable s _ ih => exact ih
  | is_color_enabled s _ ih => exact ih
  | print_range tid items s _ ih =>
    have h := print_range_alloc idText tid items s
    rw [h.2.1, h.2.2]
    exact thread_id_str_cursor idText s tid ih.1 ih.2
  | print tid args s _ ih =>
    have h := print_alloc idText tid args s
    rw [h.2.1, h.2.2]
    exact thread_id_str_cursor idText s tid ih.1 ih.2

/-- Claim C16: in every state reachable through the public operations the map holds
one entry per identity, and with n its number of entries the cursor is 0 when
n is 0 and ((n - 1) mod 15) + 1 otherwise, which is where n calls of
`next_color` from process start leave it; every stored label is an entry of
`colors`. -/
theorem cursor_determined_by_map (idText : ThreadId → String) (s : State)
    (hr : Reachable idText s) :
    (s.thread_color_map.map Prod.fst).Nodup ∧
      (s.it = if s.thread_color_map.length = 0 then 0
        else (s.thread_color_map.length - 1) % 15 + 1) ∧
      s.it = (next_colors s.thread_color_map.length initial).it ∧
      (∀ p ∈ s.thread_color_map, p.2 ∈ colors) := by
  obtain ⟨h1, h2⟩ := reachable_cursor idText s hr
  refine ⟨h1, h2, ?_, (reachable_palette_ok idText s hr).2⟩
  rw [next_colors_it]
  exact h2

/-- Witness for C16: the state after two threads have printed once each. -/
theorem cursor_determined_by_map_witness :
    (print (fun _ => "7") 2 [Printable.text "b"] (print (fun _ => "7") 1 [Printable.text "a"] initial)).thread_color_map.length
        = 2 ∧
      (print (fun _ => "7") 2 [Printable.text "b"] (print (fun _ => "7") 1 [Printable.text "a"] initial)).it = 2 ∧
      (print (fun _ => "7") 2 [Printable.text "b"] (print (fun _ => "7") 1 [Printable.text "a"] initial)).it
        = (next_colors
            (print (fun _ => "7") 2 [Printable.text "b"]
              (print (fun _ => "7") 1 [Printable.text "a"] initial)).thread_color_map.length initial).it :=
  ⟨by decide, by decide,
    (cursor_determined_by_map (fun _ => "7") _
      (Reachable.print 2 [Printable.text "b"] _ (Reachable.print 1 [Printable.text "a"] _ Reachable.start))).2.2.1⟩

/-! ## The flag and the allocator -/

theorem thread_id_str_on (idText : ThreadId → String) (s : State) (t : ThreadId)
    (h : s.color_enabled = true) :
    thread_id_str idText s t
      = ("\x1b[" ++ (thread_color s t).1 ++ "m" ++ "[" ++ idText t ++ "]", (thread_color s t).2) := by
  simp [thread_id_str, h]

theorem next_color_congr (s s' : State) (h : s.it = s'.it) :
    (next_color s).1 = (next_color s').1 ∧ (next_color s).2.it = (next_color s').2.it := by
  simp [next_color, h]

theorem thread_color_congr (s s' : State) (t : ThreadId) (hit : s.it = s'.it)
    (hm : s.thread_color_map = s'.thread_color_map) :
    (thread_color s t).1 = (thread_color s' t).1 ∧
      (thread_color s t).2.it = (thread_color s' t).2.it ∧
      (thread_color s t).2.thread_color_map = (thread_color s' t).2.thread_color_map := by
  cases hf : find s.thread_color_map t with
  | some c =>
    rw [thread_color_bound s t c hf, thread_color_bound s' t c (hm ▸ hf)]
    exact ⟨rfl, hit, hm⟩
  | none =>
    obtain ⟨h1, h2⟩ := next_color_congr s s' hit
    rw [thread_color_fresh s t hf, thread_color_fresh s' t (hm ▸ hf)]
    refine ⟨h1, h2, ?_⟩
    show assign s.thread_color_map t (next_color s).1
      = assign s'.thread_color_map t (next_color s').1
    rw [hm, h1]

theorem print_on_alloc (idText : ThreadId → String) (t : ThreadId) (args : List Printable)
    (s : State) (h : s.color_enabled = true) :
    (print idText t args s).it = (thread_color s t).2.it ∧
      (print idText t args s).thread_color_map = (thread_color s t).2.thread_color_map ∧
      (print idText t args s).color_enabled = true := by
  obtain ⟨h1, h2, h3⟩ := print_alloc idText t args s
  rw [h1, h2, h3, thread_id_str_on idText s t h]
  exact ⟨rfl, rfl, (thread_color_flag s t).trans h⟩

theorem print_off_alloc (idText : ThreadId → String) (t : ThreadId) (args : List Printable)
    (s : State) (h : s.color_enabled = false) :
    (print idText t args s).it = s.it ∧
      (print idText t args s).thread_color_map = s.thread_color_map ∧
      (print idText t args s).color_enabled = false := by
  obtain ⟨h1, h2, h3⟩ := print_alloc idText t args s
  rw [h1, h2, h3, thread_id_str_off idText s t h]
  exact ⟨rfl, rfl, h⟩

theorem print_range_off_alloc (idText : ThreadId → String) (t : ThreadId)
    (items : List Printable) (s : State) (h : s.color_enabled = false) :
    (print_range idText t items s).it = s.it ∧
      (print_range idText t items s).thread_color_map = s.thread_color_map ∧
      (print_range idText t items s).color_enabled = false := by
  obtain ⟨h1, h2, h3⟩ := print_range_alloc idText t items s
  rw [h1, h2, h3, thread_id_str_off idText s t h]
  exact ⟨rfl, rfl, h⟩

theorem print_fresh_alloc (idText : ThreadId → String) (t : ThreadId) (args : List Printable)
    (s : State) (h : s.color_enabled = true) (hf : find s.thread_color_map t = none) :
    (print idText t args s).it = (next_color s).2.it ∧
      (print idText t args s).thread_color_map
        = assign s.thread_color_map t (next_color s).1 ∧
      (print idText t args s).color_enabled = true := by
  obtain ⟨h1, h2, h3⟩ := print_on_alloc idText t args s h
  rw [h1, h2, thread_color_fresh s t hf]
  exact ⟨rfl, rfl, h3⟩

theorem first_enabled_print_order (idText : ThreadId → String) (s : State) (a b : ThreadId)
    (args1 args2 args3 : List Printable) (h : s.color_enabled = false) (hab : b ≠ a)
    (ha : find s.thread_color_map a = none) (hb : find s.thread_color_map b = none) :
    find (print idText a args3 (print idText b args2
        (set_color_enabled true (print idText a args1 s)))).thread_color_map b
        = some (next_color s).1 ∧
      find (print idText a args3 (print idText b args2
        (set_color_enabled true (print idText a args1 s)))).thread_color_map a
        = some (next_color (next_color s).2).1 := by
  obtain ⟨p1, p2, _⟩ := print_off_alloc idText a args1 s h
  have q1 : (set_color_enabled true (print idText a args1 s)).it = s.it := p1
  have q2 : (set_color_enabled true (print idText a args1 s)).thread_color_map
      = s.thread_color_map := p2
  have q3 : (set_color_enabled true (print idText a args1 s)).color_enabled = true := rfl
  generalize set_color_enabled true (print idText a args1 s) = s2 at q1 q2 q3
  obtain ⟨n1, n2⟩ := next_color_congr s2 s q1
  obtain ⟨r1, r2, r3⟩ := print_fresh_alloc idText b args2 s2 q3 (by rw [q2]; exact hb)
  rw [n1, q2] at r2
  rw [n2] at r1
  generalize print idText b args2 s2 = s3 at r1 r2 r3
  have hfa : find s3.thread_color_map a = none := by
    rw [r2, find_assign_other _ _ _ _ (Ne.symm hab)]; exact ha
  obtain ⟨m1, m2⟩ := next_color_congr s3 (next_color s).2 r1
  obtain ⟨t1, t2, _⟩ := print_fresh_alloc idText a args3 s3 r3 hfa
  rw [t2, m1]
  refine ⟨?_, find_assign_self _ _ _⟩
  rw [find_assign_other _ _ _ _ hab, r2]
  exact find_assign_self _ _ _

/-- Claim C15: while the flag is off, `thread_id_str`, `print` and `print_range`
leave the map and the cursor as they are, so an identity first seen then gets no
label; when an unseen thread prints with the flag off, the flag is switched on,
another unseen thread prints and then the first one again, the second thread gets
the next palette entry and the first thread the one after it. -/
theorem flag_off_skips_allocator (idText : ThreadId → String) (s : State) (tid : ThreadId)
    (h : s.color_enabled = false) :
    (thread_id_str idText s tid).2 = s ∧
      (∀ args : List Printable, (print idText tid args s).it = s.it ∧
        (print idText tid args s).thread_color_map = s.thread_color_map) ∧
      (∀ items : List Printable, (print_range idText tid items s).it = s.it ∧
        (print_range idText tid items s).thread_color_map = s.thread_color_map) ∧
      (∀ args : List Printable, find s.thread_color_map tid = none →
        find (print idText tid args s).thread_color_map tid = none) ∧
      (∀ (b : ThreadId) (args1 args2 args3 : List Printable), b ≠ tid →
        find s.thread_color_map tid = none → find s.thread_color_map b = none →
        find (print idText tid args3 (print idText b args2
            (set_color_enabled true (print idText tid args1 s)))).thread_color_map b
            = some (next_color s).1 ∧
          find (print idText tid args3 (print idText b args2
            (set_color_enabled true (print idText tid args1 s)))).thread_color_map tid
            = some (next_color (next_color s).2).1) := by
  refine ⟨?_, ?_, ?_, ?_, ?_⟩
  · rw [thread_id_str_off idText s tid h]
  · intro args
    exact ⟨(print_off_alloc idText tid args s h).1, (print_off_alloc idText tid args s h).2.1⟩
  · intro items
    exact ⟨(print_range_off_alloc idText tid items s h).1,
      (print_range_off_alloc idText tid items s h).2.1⟩
  · intro args hf
    rw [(print_off_alloc idText tid args s h).2.1]; exact hf
  · intro b args1 args2 args3 hb ha hfb
    exact first_enabled_print_order idText s tid b args1 args2 args3 h hb ha hfb

/-- Witness for C15: thread 1 prints first, with the flag off, and thread 2 is the
first to print with the flag on; thread 2 gets 31 and thread 1 gets 32. -/
theorem flag_off_skips_allocator_witness :
    (set_color_enabled false initial).color_enabled = false ∧
      find (print (fun _ => "7") 1 [Printable.text "z"] (print (fun _ => "7") 2 [Printable.text "y"]
        (set_color_enabled true
          (print (fun _ => "7") 1 [Printable.text "x"] (set_color_enabled false initial))))).thread_color_map 2
        = some (next_color (set_color_enabled false initial)).1 ∧
      (next_color (set_color_enabled false initial)).1 = "31" ∧
      find (print (fun _ => "7") 1 [Printable.text "z"] (print (fun _ => "7") 2 [Printable.text "y"]
        (set_color_enabled true
          (print (fun _ => "7") 1 [Printable.text "x"] (set_color_enabled false initial))))).thread_color_map 1
        = some "32" :=
  ⟨rfl,
    ((flag_off_skips_allocator (fun _ => "7") (set_color_enabled false initial) 1 rfl).2.2.2.2
      2 [Printable.text "x"] [Printable.text "y"] [Printable.text "z"] (by decide) (by decide) (by decide)).1,
    by decide, by decide⟩

/-- Claim C17: `set_color_enabled` changes the flag and nothing else,
`is_color_enabled` changes nothing, and `print` and `print_range` keep the flag;
so after coloring is switched off and on again, with or without a print in
between, the tag of a thread is the one it would have had with the flag on all
along, and a thread already bound to a label keeps that label in its tag. -/
theorem flag_frame (idText : ThreadId → String) (s : State) :
    (∀ x : Bool, (set_color_enabled x s).color_enabled = x ∧
        (set_color_enabled x s).it = s.it ∧
        (set_color_enabled x s).thread_color_map = s.thread_color_map ∧
        (set_color_enabled x s).cout = s.cout) ∧
      (is_color_enabled s).2 = s ∧
      (∀ (tid : ThreadId) (args : List Printable),
        (print idText tid args s).color_enabled = s.color_enabled) ∧
      (∀ (tid : ThreadId) (items : List Printable),
        (print_range idText tid items s).color_enabled = s.color_enabled) ∧
      set_color_enabled true (set_color_enabled false s) = set_color_enabled true s ∧
      (∀ (tid u : ThreadId) (args : List Printable),
        (thread_id_str idText
            (set_color_enabled true (print idText u args (set_color_enabled false s))) tid).1
          = (thread_id_str idText (set_color_enabled true s) tid).1) ∧
      (∀ (tid : ThreadId) (c : String), find s.thread_color_map tid = some c →
        (thread_id_str idText (set_color_enabled true (set_color_enabled false s)) tid).1
          = "\x1b[" ++ c ++ "m" ++ "[" ++ idText tid ++ "]") := by
  refine ⟨fun x => ⟨rfl, rfl, rfl, rfl⟩, rfl, ?_, ?_, rfl, ?_, ?_⟩
  · intro tid args
    exact (print_alloc idText tid args s).1.trans (thread_id_str_flag idText s tid)
  · intro tid items
    exact (print_range_alloc idText tid items s).1.trans (thread_id_str_flag idText s tid)
  · intro tid u args
    obtain ⟨p1, p2, _⟩ := print_off_alloc idText u args (set_color_enabled false s) rfl
    have hc := (thread_color_congr
      (set_color_enabled true (print idText u args (set_color_enabled false s)))
      (set_color_enabled true s) tid p1 p2).1
    rw [thread_id_str_on idText _ tid rfl, thread_id_str_on idText _ tid rfl]
    show _ ++ _ ++ _ ++ _ ++ _ ++ _ = _ ++ _ ++ _ ++ _ ++ _ ++ _
    rw [hc]
  · intro tid c hf
    have e : thread_color (set_color_enabled true (set_color_enabled false s)) tid
        = (c, set_color_enabled true (set_color_enabled false s)) :=
      thread_color_bound _ tid c hf
    rw [thread_id_str_on idText _ tid rfl, e]

/-- Witness for C17: a thread bound to 31 keeps 31 in its tag after a toggle. -/
theorem flag_frame_witness :
    find (print (fun _ => "7") 1 [Printable.text "x"] initial).thread_color_map 1 = some "31" ∧
      (thread_id_str (fun _ => "7")
        (set_color_enabled true
          (set_color_enabled false (print (fun _ => "7") 1 [Printable.text "x"] initial))) 1).1
        = "\x1b[" ++ "31" ++ "m" ++ "[" ++ "7" ++ "]" :=
  ⟨by decide,
    (flag_frame (fun _ => "7") (print (fun _ => "7") 1 [Printable.text "x"] initial)).2.2.2.2.2.2
      1 "31" (by decide)⟩

end mt_color_print
